import Mathlib

/-!
Verification of the Genode NIC-router `Net::Interface` header and the
Fiasco.OC IPC message buffer (`Genode::Msgbuf_base`).

The development shallowly embeds the code under `src/`:
* the `send(pkt_size, write_to_pkt)` template of `Net::Interface`
  (its body is fully contained in the header),
* the empty packet-stream signal handlers `_ack_avail` / `_packet_avail`,
* the capability-selector payload of `Msgbuf_base`
  (`snd_reset` / `snd_append_cap_sel` / `snd_cap_sel_cnt`).

The implementations of the packet handling of `Net::Interface`
(`_handle_eth`, `_handle_ip`, `_nat_link_and_pass`, `_new_dhcp_allocation`,
the link lists and the destructor) are only declared in the header; the
corresponding definitions below are modelled from the specification and are
marked as such in their doc comments.
-/

namespace GenodeNet

/-! ## Msgbuf_base (src/unnamed/part_001) -/

/-- Constant `MAX_CAP_ARGS_LOG2 = 2` from the `enum` in `Msgbuf_base`. -/
def MAX_CAP_ARGS_LOG2 : Nat := 2

/-- Constant `MAX_CAP_ARGS = 1 << MAX_CAP_ARGS_LOG2`. -/
def MAX_CAP_ARGS : Nat := 2 ^ MAX_CAP_ARGS_LOG2

/-- The capability-selector send state of `Genode::Msgbuf_base`:
the array `_snd_cap_sel[MAX_CAP_ARGS]` and the counter `_snd_cap_sel_cnt`. -/
structure Msgbuf_base where
  snd_cap_sel_arr : List Nat
  snd_cap_sel_cnt_fld : Nat
deriving DecidableEq, Repr

/-- Embeds `snd_reset`, which sets `_snd_cap_sel_cnt = 0`. -/
def snd_reset (m : Msgbuf_base) : Msgbuf_base :=
  { m with snd_cap_sel_cnt_fld := 0 }

/-- Embeds `snd_append_cap_sel(addr_t cap_sel)`: it returns `false` when
`_snd_cap_sel_cnt >= MAX_CAP_ARGS`, otherwise stores the selector at index
`_snd_cap_sel_cnt` and post-increments the counter, returning `true`. -/
def snd_append_cap_sel (m : Msgbuf_base) (cap_sel : Nat) : Bool × Msgbuf_base :=
  if m.snd_cap_sel_cnt_fld ≥ MAX_CAP_ARGS then
    (false, m)
  else
    (true, { snd_cap_sel_arr := m.snd_cap_sel_arr.set m.snd_cap_sel_cnt_fld cap_sel,
             snd_cap_sel_cnt_fld := m.snd_cap_sel_cnt_fld + 1 })

/-- Embeds `snd_cap_sel_cnt`, which returns `_snd_cap_sel_cnt`. -/
def snd_cap_sel_cnt (m : Msgbuf_base) : Nat := m.snd_cap_sel_cnt_fld

/-- One client operation on the selector payload, as the public API allows. -/
inductive MsgbufOp where
  | reset
  | append (cap_sel : Nat)
deriving DecidableEq, Repr

/-- Effect of one operation on the buffer state. -/
def msgbufStep (m : Msgbuf_base) (op : MsgbufOp) : Msgbuf_base :=
  match op with
  | .reset => snd_reset m
  | .append c => (snd_append_cap_sel m c).2

/-- The constructor `Msgbuf_base(capacity)` calls `snd_reset()`, so a fresh
buffer has `_snd_cap_sel_cnt = 0` and an uninitialised selector array of
`MAX_CAP_ARGS` cells. -/
def msgbufInit : Msgbuf_base :=
  { snd_cap_sel_arr := List.replicate MAX_CAP_ARGS 0, snd_cap_sel_cnt_fld := 0 }

/-- The buffer state after a sequence of `snd_reset` / `snd_append_cap_sel`
calls on a freshly constructed buffer. -/
def msgbufRun (ops : List MsgbufOp) : Msgbuf_base :=
  ops.foldl msgbufStep msgbufInit

/-! ## Interface::send (src/unnamed/part_000, lines 225-239) -/

/-- Whether `_send_alloc_pkt` returns normally or throws
`Packet_stream_source::Packet_alloc_failed`. -/
inductive AllocOutcome where
  | allocOk
  | allocFailed
deriving DecidableEq, Repr

/-- Behaviour of one step inside the `try` block: it returns normally,
throws `Packet_alloc_failed` (which the `catch` clause of `send` catches),
or throws any other exception (which propagates out of `send`). -/
inductive StepOutcome where
  | stepOk
  | stepThrewAllocFailed
  | stepThrew
deriving DecidableEq, Repr

/-- Observable effects of one execution of `send(pkt_size, write_to_pkt)`. -/
structure SendTrace where
  warned : Bool
  writerInvoked : Bool
  allocated : Bool
  submitted : Bool
  released : Bool
  propagates : Bool
deriving DecidableEq, Repr

/-- Shallow embedding of the body of `Interface::send`:
```
try {
  _send_alloc_pkt(pkt, pkt_base, pkt_size);
  write_to_pkt(pkt_base);
  _send_submit_pkt(pkt, pkt_base, pkt_size);
}
catch (Packet_stream_source::Packet_alloc_failed) {
  Genode::warning("failed to allocate packet");
}
```
parameterised by whether the allocation fails and by the behaviour of the
writer callback and of the submit step.  The body contains no call that
releases the allocated packet, hence `released := false` in every branch. -/
def send (alloc : AllocOutcome) (writer submitStep : StepOutcome) : SendTrace :=
  match alloc with
  | .allocFailed =>
      { warned := true, writerInvoked := false, allocated := false,
        submitted := false, released := false, propagates := false }
  | .allocOk =>
    match writer with
    | .stepThrew =>
        { warned := false, writerInvoked := true, allocated := true,
          submitted := false, released := false, propagates := true }
    | .stepThrewAllocFailed =>
        { warned := true, writerInvoked := true, allocated := true,
          submitted := false, released := false, propagates := false }
    | .stepOk =>
      match submitStep with
      | .stepThrew =>
          { warned := false, writerInvoked := true, allocated := true,
            submitted := false, released := false, propagates := true }
      | .stepThrewAllocFailed =>
          { warned := true, writerInvoked := true, allocated := true,
            submitted := false, released := false, propagates := false }
      | .stepOk =>
          { warned := false, writerInvoked := true, allocated := true,
            submitted := true, released := false, propagates := false }

/-! ## Empty packet-stream signal handlers (src/unnamed/part_000, lines 185, 187) -/

/-- An ARP waiter record: waiting interface, target IP, parked descriptor. -/
structure ArpWaiterRec where
  iface : Nat
  targetIp : Nat
  desc : Nat
deriving DecidableEq, Repr

/-- The per-interface state visible to the packet-stream signal handlers:
link lists, dissolved link lists, ARP waiters, DHCP allocations and the
DHCP client state. -/
structure IfaceState where
  tcp_links : List Nat
  udp_links : List Nat
  dissolved_tcp_links : List Nat
  dissolved_udp_links : List Nat
  own_arp_waiters : List ArpWaiterRec
  dhcp_allocations : List (Nat × Nat)
  dhcp_client_state : Nat
deriving DecidableEq, Repr

/-- Result of running a signal handler: the new interface state, the frames
it emitted and the RX packets it acknowledged. -/
structure HandlerResult where
  state : IfaceState
  sentFrames : List Nat
  ackedPkts : List Nat
deriving DecidableEq, Repr

/-- Embeds `void _ack_avail() { }` — the body is empty. -/
def ack_avail (s : IfaceState) : HandlerResult :=
  { state := s, sentFrames := [], ackedPkts := [] }

/-- Embeds `void _packet_avail() { }` — the body is empty. -/
def packet_avail (s : IfaceState) : HandlerResult :=
  { state := s, sentFrames := [], ackedPkts := [] }

/-! ## IPv4 dispatch (`_handle_ip`), modelled from the spec -/

/-- The facts about a received IPv4 packet that the dispatch of
`_handle_ip` consults. -/
structure IpPktInfo where
  dstIsOwnIp : Bool
  isUdp : Bool
  dhcpPorts : Bool
  transportRuleHit : Bool
  ipRuleHit : Bool
  dstIsDomainBroadcast : Bool
deriving DecidableEq, Repr

/-- Where the IPv4 dispatch sends a packet. -/
inductive IpDispatch where
  | toDhcp
  | toTransportRule
  | toIpRule
  | toBroadcast
  | toDrop
deriving DecidableEq, Repr

/-- Modelled from the spec: the body of `_handle_ip` is not in the header,
only its declaration; the spec fixes the dispatch order as (1) DHCP when the
destination is an own IP and the transport is UDP with ports 67/68, (2) the
transport-rule lookup, (3) the IP-rule lookup, (4) the domain broadcast,
(5) drop. -/
def handle_ip (p : IpPktInfo) : IpDispatch :=
  if p.dstIsOwnIp && p.isUdp && p.dhcpPorts then .toDhcp
  else if p.transportRuleHit then .toTransportRule
  else if p.ipRuleHit then .toIpRule
  else if p.dstIsDomainBroadcast then .toBroadcast
  else .toDrop

/-! ## DHCP server DISCOVER handling (`_new_dhcp_allocation`), modelled from the spec -/

/-- State of a DHCP allocation record. -/
inductive DhcpAllocState where
  | offered
  | bound
deriving DecidableEq, Repr

/-- A DHCP allocation: client MAC, assigned IP, state, lease expiry. -/
structure DhcpAlloc where
  mac : Nat
  ip : Nat
  st : DhcpAllocState
  expiry : Nat
deriving DecidableEq, Repr

/-- Lookup of the allocation of a client MAC in `_dhcp_allocations`. -/
def dhcpFind (allocs : List DhcpAlloc) (m : Nat) : Option DhcpAlloc :=
  allocs.find? (fun a => a.mac == m)

/-- Whether an IP is present in `_dhcp_allocations`. -/
def ipAllocated (allocs : List DhcpAlloc) (ip : Nat) : Bool :=
  allocs.any (fun a => a.ip == ip)

/-- The configured DHCP pool `[low..high]` in scan order. -/
def poolIps (low high : Nat) : List Nat := List.range' low (high + 1 - low)

/-- The first IP of `[low..high]`, scanned in order, that is not present in
the allocations. -/
def firstFreeIp (allocs : List DhcpAlloc) (low high : Nat) : Option Nat :=
  (poolIps low high).find? (fun ip => !(ipAllocated allocs ip))

/-- Result of handling a DHCPDISCOVER. -/
inductive DiscoverResult where
  | offer (ip : Nat) (allocs : List DhcpAlloc)
  | dropWarn (msg : String)
deriving DecidableEq, Repr

/-- Modelled from the spec: the body of `_new_dhcp_allocation` is not in the
header.  Per the spec, a DHCPDISCOVER from MAC `m` reuses the IP of an
existing BOUND or OFFERED allocation for `m`; otherwise it takes the first
free IP of `[low..high]`, creating an OFFERED allocation expiring at
`now + offerTimeout`; with the pool full it drops with
`Drop_packet_warn("dhcp pool full")`. -/
def new_dhcp_allocation (allocs : List DhcpAlloc)
    (m low high now offerTimeout : Nat) : DiscoverResult :=
  match dhcpFind allocs m with
  | some a => .offer a.ip allocs
  | none =>
    match firstFreeIp allocs low high with
    | none => .dropWarn "dhcp pool full"
    | some ip => .offer ip (⟨m, ip, .offered, now + offerTimeout⟩ :: allocs)

/-! ## NAT rewrite (`_nat_link_and_pass`), modelled from the spec -/

/-- A transport packet as the NAT rewrite sees it: addresses, ports and the
transport payload. -/
structure NatPkt where
  srcIp : Nat
  srcPort : Nat
  dstIp : Nat
  dstPort : Nat
  payload : List Nat
deriving DecidableEq, Repr

/-- The two sides of a NAT link that matter for the rewrite: the original
client-side source and the post-NAT (egress) source. -/
structure NatLink where
  clientIp : Nat
  clientPort : Nat
  natIp : Nat
  natPort : Nat
deriving DecidableEq, Repr

/-- Modelled from the spec: the body of `_nat_link_and_pass` is not in the
header.  The outbound leg rewrites `src IP := egress IP` and
`src port := allocated port`. -/
def natForwardRewrite (l : NatLink) (p : NatPkt) : NatPkt :=
  { p with srcIp := l.natIp, srcPort := l.natPort }

/-- Modelled from the spec: an inbound reply that matches the server side of
a link is rewritten using the opposite (client) side's addresses:
`dst IP/port := original client IP/port`. -/
def natReverseRewrite (l : NatLink) (p : NatPkt) : NatPkt :=
  { p with dstIp := l.clientIp, dstPort := l.clientPort }

/-- The inbound reply to a packet: source and destination swapped, with the
server's payload. -/
def replyTo (p : NatPkt) (payload : List Nat) : NatPkt :=
  { srcIp := p.dstIp, srcPort := p.dstPort,
    dstIp := p.srcIp, dstPort := p.srcPort, payload := payload }

/-- A NAT link as the router-global state sees it: a stable id and the two
interfaces it connects. -/
structure LinkRec where
  id : Nat
  i1 : Nat
  i2 : Nat
deriving DecidableEq, Repr

/-! ## RX acknowledgement discipline (`_handle_eth` / `_ack_packet` /
`_ready_to_submit` / `Packet_postponed`), modelled from the spec -/

/-- The outcome of parsing one RX packet, as the spec's result sum type. -/
inductive ParseOutcome where
  | accept
  | dropInform
  | dropWarn
  | postpone
deriving DecidableEq, Repr

/-- The acknowledgement-relevant state of one interface: the descriptors
taken from the sink so far, the acknowledgements produced so far (as a
multiset of descriptors) and the descriptors currently parked in ARP
waiters. -/
structure RxState where
  taken : List Nat
  acked : List Nat
  waiters : List Nat
deriving DecidableEq, Repr

/-- Events of the RX pipeline, modelled from the spec: `ready_to_submit`
takes a descriptor from the sink, parses it and acks it unless the parse
raises `Packet_postponed`, in which case the descriptor is parked in an ARP
waiter; an ARP reply resumes a waiter (re-injecting the packet, which may
postpone again, else acks); an ARP timeout drops and acks the parked
descriptor; interface destruction cancels all waiters, dropping and acking
their descriptors. -/
inductive RxEvent where
  | take (d : Nat) (o : ParseOutcome)
  | resume (d : Nat) (o : ParseOutcome)
  | timeout (d : Nat)
  | destroy
deriving DecidableEq, Repr

/-- Modelled from the spec: one step of the RX acknowledgement discipline. -/
def rxStep (s : RxState) (e : RxEvent) : RxState :=
  match e with
  | .take d o =>
    match o with
    | .postpone =>
        { taken := d :: s.taken, acked := s.acked, waiters := d :: s.waiters }
    | _ =>
        { taken := d :: s.taken, acked := d :: s.acked, waiters := s.waiters }
  | .resume d o =>
    if d ∈ s.waiters then
      match o with
      | .postpone =>
          { s with waiters := d :: s.waiters.erase d }
      | _ =>
          { s with acked := d :: s.acked, waiters := s.waiters.erase d }
    else s
  | .timeout d =>
    if d ∈ s.waiters then
      { s with acked := d :: s.acked, waiters := s.waiters.erase d }
    else s
  | .destroy =>
      { s with acked := s.waiters ++ s.acked, waiters := [] }

/-- The interface at session-open time: nothing taken, acked or parked. -/
def rxInit : RxState := { taken := [], acked := [], waiters := [] }

/-- Running a trace of RX events. -/
def rxRun (es : List RxEvent) : RxState := es.foldl rxStep rxInit

/-- Whether an event respects, in state `s`, that the sink hands out each
descriptor at most once: a `take` concerns a descriptor not taken before. -/
def evFresh (e : RxEvent) (s : RxState) : Bool :=
  match e with
  | .take d _ => decide (d ∉ s.taken)
  | _ => true

/-- A trace is well formed when every `take` concerns a descriptor not
taken before. -/
def freshTakes (es : List RxEvent) (s : RxState) : Bool :=
  match es with
  | [] => true
  | e :: rest => evFresh e s && freshTakes rest (rxStep s e)

/-- The exactly-once bookkeeping invariant: a taken descriptor is either
acked once or parked once, and an untaken descriptor is neither. -/
def rxInv (s : RxState) : Prop :=
  ∀ d, s.acked.count d + s.waiters.count d = if d ∈ s.taken then 1 else 0

/-! ## Link lists (`links` / `dissolved_links`), modelled from the spec -/

/-- Events on the link lists, modelled from the spec: `_nat_link_and_pass`
creates a link and inserts it into the active lists of both interfaces;
dissolution moves it to the dissolved lists of both; the `ready_to_ack`
drain deletes the dissolved links. -/
inductive LinkEvent where
  | create (id i1 i2 : Nat)
  | dissolve (id : Nat)
  | drain
deriving DecidableEq, Repr

/-- The link-list state: the live links (created and not yet deleted) and
the contents of the per-interface active and dissolved lists, as sets of
entries `(interface, link id)`. -/
structure LinkState where
  links : List LinkRec
  act : List (Nat × Nat)
  dis : List (Nat × Nat)
deriving DecidableEq, Repr

/-- Modelled from the spec: one step on the link lists.  A `create` of a
fresh id between two distinct interfaces inserts the link into both
interfaces' active lists; a `dissolve` of an active link moves both entries
to the dissolved lists; `drain` (the `ready_to_ack` reclamation) deletes
every dissolved link. -/
def linkStep (s : LinkState) (e : LinkEvent) : LinkState :=
  match e with
  | .create id i1 i2 =>
    if (s.links.all (fun l => l.id != id)) && (i1 != i2) then
      { links := ⟨id, i1, i2⟩ :: s.links,
        act := (i1, id) :: (i2, id) :: s.act,
        dis := s.dis }
    else s
  | .dissolve id =>
    match s.links.find? (fun l => l.id == id) with
    | some l =>
      if (l.i1, l.id) ∈ s.act then
        { s with act := (s.act.erase (l.i1, l.id)).erase (l.i2, l.id),
                 dis := (l.i1, l.id) :: (l.i2, l.id) :: s.dis }
      else s
    | none => s
  | .drain =>
      { links := s.links.filter (fun l => (l.i1, l.id) ∉ s.dis),
        act := s.act,
        dis := [] }

/-- The empty link table. -/
def linkInit : LinkState := { links := [], act := [], dis := [] }

/-- Running a trace of link events. -/
def linkRun (es : List LinkEvent) : LinkState := es.foldl linkStep linkInit

/-- The link-list invariant: link ids are unique, the two interfaces of a
link are distinct, each live link is in exactly one list on each of its two
interfaces, its two sides are in the same kind of list, and every list
entry belongs to a live link. -/
structure LinkInv (s : LinkState) : Prop where
  ids_nodup : (s.links.map LinkRec.id).Nodup
  sides_ne : ∀ l ∈ s.links, l.i1 ≠ l.i2
  one1 : ∀ l ∈ s.links, s.act.count (l.i1, l.id) + s.dis.count (l.i1, l.id) = 1
  one2 : ∀ l ∈ s.links, s.act.count (l.i2, l.id) + s.dis.count (l.i2, l.id) = 1
  sync : ∀ l ∈ s.links, s.act.count (l.i1, l.id) = s.act.count (l.i2, l.id)
  act_origin : ∀ p ∈ s.act, ∃ l, l ∈ s.links ∧ (p = (l.i1, l.id) ∨ p = (l.i2, l.id))
  dis_origin : ∀ p ∈ s.dis, ∃ l, l ∈ s.links ∧ (p = (l.i1, l.id) ∨ p = (l.i2, l.id))

/-! ## Interface destruction (`~Interface` / `cancel_arp_waiting`),
modelled from the spec -/

/-- The links a given interface participates in: those whose sides sit in
the interface's own link lists. -/
def linksOf (s : LinkState) (i : Nat) : List LinkRec :=
  s.links.filter (fun l => l.i1 == i || l.i2 == i)

/-- The router-global state that can reference an interface: the shared
link table and its per-interface lists, the DHCP allocations
(interface, allocation id), the ARP waiters and the timers
(interface, timer id). -/
structure RouterState where
  linkst : LinkState
  allocsOf : List (Nat × Nat)
  waiters : List ArpWaiterRec
  timers : List (Nat × Nat)
deriving DecidableEq, Repr

/-- Modelled from the spec: the body of `~Interface` is not in the header.
Destruction dissolves every link the interface participates in — each such
link migrates from the active lists to the dissolved lists of both of its
interfaces, per the two-phase discipline, and is deleted only at the next
`ready_to_ack` drain — releases every DHCP allocation the interface holds,
cancels all of its timers, and revokes (via `cancel_arp_waiting`) every
ARP waiter whose waiting interface is this interface. -/
def destroyInterface (s : RouterState) (i : Nat) : RouterState :=
  { linkst := ((linksOf s.linkst i).map LinkRec.id).foldl
      (fun st id => linkStep st (.dissolve id)) s.linkst,
    allocsOf := s.allocsOf.filter (fun a => a.1 ≠ i),
    waiters := s.waiters.filter (fun w => w.iface ≠ i),
    timers := s.timers.filter (fun t => t.1 ≠ i) }

/-- The demonstration trace for the exactly-once acknowledgement theorem:
two packets acked at once, one postponed then timed out, one postponed then
resumed, one postponed and left for the destructor. -/
def rxDemoTrace : List RxEvent :=
  [.take 0 .accept, .take 1 .postpone, .timeout 1, .take 2 .postpone,
   .resume 2 .accept, .take 3 .dropWarn, .take 4 .postpone]

/-- The demonstration trace for the link-list theorem: two links created,
one of them dissolved. -/
def linkDemoTrace : List LinkEvent :=
  [.create 5 1 2, .create 6 2 3, .dissolve 5]

/-! ## Theorems -/

/-- C9: delivery of the `ack_avail` or `packet_avail` packet-stream signal
is a no-op: the handler leaves every field of the interface state unchanged,
emits no frame and acknowledges no packet. -/
theorem ack_avail_packet_avail_noop (s : IfaceState) :
    ack_avail s = { state := s, sentFrames := [], ackedPkts := [] } ∧
    packet_avail s = { state := s, sentFrames := [], ackedPkts := [] } :=
  ⟨rfl, rfl⟩

/-- C5: when allocating the TX buffer fails with `Packet_alloc_failed`,
`send` logs a warning, submits no packet, does not invoke the writer, and
returns normally — the allocation failure never propagates to the caller. -/
theorem send_alloc_failed_dropped (writer submitStep : StepOutcome) :
    (send .allocFailed writer submitStep).warned = true ∧
    (send .allocFailed writer submitStep).submitted = false ∧
    (send .allocFailed writer submitStep).writerInvoked = false ∧
    (send .allocFailed writer submitStep).propagates = false :=
  ⟨rfl, rfl, rfl, rfl⟩

/-- C4 counterexample: when the writer callback throws an exception other
than `Packet_alloc_failed`, the packet allocated from the source is neither
submitted nor released, and `send` propagates the exception — the claimed
submit-or-release guarantee fails in this execution. -/
theorem send_writer_throw_leaks :
    (send .allocOk .stepThrew .stepOk).allocated = true ∧
    (send .allocOk .stepThrew .stepOk).submitted = false ∧
    (send .allocOk .stepThrew .stepOk).released = false ∧
    (send .allocOk .stepThrew .stepOk).propagates = true := by
  decide

/-- C4 amended: a TX packet successfully allocated by `send` is submitted
exactly when both the writer callback and the submit step return normally;
when either of them throws (whether the exception is the caught
`Packet_alloc_failed` or any other), the allocated packet is neither
submitted nor released. -/
theorem send_submit_iff_no_throw (writer submitStep : StepOutcome) :
    ((writer = .stepOk ∧ submitStep = .stepOk) →
      (send .allocOk writer submitStep).allocated = true ∧
      (send .allocOk writer submitStep).submitted = true ∧
      (send .allocOk writer submitStep).released = false) ∧
    ((writer ≠ .stepOk ∨ submitStep ≠ .stepOk) →
      (send .allocOk writer submitStep).allocated = true ∧
      (send .allocOk writer submitStep).submitted = false ∧
      (send .allocOk writer submitStep).released = false) := by
  cases writer <;> cases submitStep <;> decide

/-- C6: the IPv4 dispatch applies its steps in the fixed order DHCP,
transport rule, IP rule, domain broadcast, drop: each branch is taken
exactly when its condition holds and every earlier condition fails. -/
theorem handle_ip_dispatch_order (p : IpPktInfo) :
    (handle_ip p = .toDhcp ↔
      (p.dstIsOwnIp && p.isUdp && p.dhcpPorts) = true) ∧
    (handle_ip p = .toTransportRule ↔
      (p.dstIsOwnIp && p.isUdp && p.dhcpPorts) = false ∧
      p.transportRuleHit = true) ∧
    (handle_ip p = .toIpRule ↔
      (p.dstIsOwnIp && p.isUdp && p.dhcpPorts) = false ∧
      p.transportRuleHit = false ∧ p.ipRuleHit = true) ∧
    (handle_ip p = .toBroadcast ↔
      (p.dstIsOwnIp && p.isUdp && p.dhcpPorts) = false ∧
      p.transportRuleHit = false ∧ p.ipRuleHit = false ∧
      p.dstIsDomainBroadcast = true) ∧
    (handle_ip p = .toDrop ↔
      (p.dstIsOwnIp && p.isUdp && p.dhcpPorts) = false ∧
      p.transportRuleHit = false ∧ p.ipRuleHit = false ∧
      p.dstIsDomainBroadcast = false) := by
  obtain ⟨a, b, c, d, e, f⟩ := p
  cases a <;> cases b <;> cases c <;> cases d <;> cases e <;> cases f <;> decide

/-- C3: for a flow whose NAT link matches the packet's client-side source,
the forward rewrite followed by the reverse rewrite of the matching inbound
reply restores exactly the original client-side addresses and ports, and
both rewrites are the identity on the transport payload. -/
theorem nat_rewrite_bijective (l : NatLink) (p : NatPkt) (pl : List Nat)
    (h1 : p.srcIp = l.clientIp) (h2 : p.srcPort = l.clientPort) :
    natReverseRewrite l (replyTo (natForwardRewrite l p) pl) = replyTo p pl ∧
    (natForwardRewrite l p).payload = p.payload ∧
    (∀ r, (natReverseRewrite l r).payload = r.payload) := by
  refine ⟨?_, rfl, fun r => rfl⟩
  simp [natReverseRewrite, natForwardRewrite, replyTo, h1, h2]

/-- C3 witness: the round trip evaluated on a concrete flow. -/
theorem nat_rewrite_bijective_witness :
    (⟨10, 5000, 8, 53, [1, 2]⟩ : NatPkt).srcIp =
      (⟨10, 5000, 99, 49152⟩ : NatLink).clientIp ∧
    (⟨10, 5000, 8, 53, [1, 2]⟩ : NatPkt).srcPort =
      (⟨10, 5000, 99, 49152⟩ : NatLink).clientPort ∧
    (natReverseRewrite ⟨10, 5000, 99, 49152⟩
        (replyTo (natForwardRewrite ⟨10, 5000, 99, 49152⟩
          ⟨10, 5000, 8, 53, [1, 2]⟩) [7]) =
      replyTo ⟨10, 5000, 8, 53, [1, 2]⟩ [7] ∧
    (natForwardRewrite ⟨10, 5000, 99, 49152⟩
        ⟨10, 5000, 8, 53, [1, 2]⟩).payload = [1, 2] ∧
    (∀ r, (natReverseRewrite (⟨10, 5000, 99, 49152⟩ : NatLink) r).payload =
      r.payload)) :=
  ⟨rfl, rfl, nat_rewrite_bijective ⟨10, 5000, 99, 49152⟩
    ⟨10, 5000, 8, 53, [1, 2]⟩ [7] rfl rfl⟩

/-- Helper: any sequence of selector operations keeps the counter at most
`MAX_CAP_ARGS` and the array length constant. -/
theorem msgbuf_foldl_bound (ops : List MsgbufOp) :
    ∀ m : Msgbuf_base, m.snd_cap_sel_cnt_fld ≤ MAX_CAP_ARGS →
      m.snd_cap_sel_arr.length = MAX_CAP_ARGS →
      (ops.foldl msgbufStep m).snd_cap_sel_cnt_fld ≤ MAX_CAP_ARGS ∧
      (ops.foldl msgbufStep m).snd_cap_sel_arr.length = MAX_CAP_ARGS := by
  induction ops with
  | nil => exact fun m h1 h2 => ⟨h1, h2⟩
  | cons op rest ih =>
    intro m h1 h2
    refine ih (msgbufStep m op) ?_ ?_
    · cases op with
      | reset => exact Nat.zero_le _
      | append c =>
        simp only [msgbufStep, snd_append_cap_sel]
        split
        · exact h1
        · rename_i h
          show m.snd_cap_sel_cnt_fld + 1 ≤ MAX_CAP_ARGS
          omega
    · cases op with
      | reset => exact h2
      | append c =>
        simp only [msgbufStep, snd_append_cap_sel]
        split
        · exact h2
        · simpa using h2

/-- C10: `snd_append_cap_sel` succeeds and increments the selector count by
one exactly when fewer than `MAX_CAP_ARGS = 4` selectors are stored, fails
leaving the buffer unchanged when the count has reached `MAX_CAP_ARGS`, and
on every sequence of `snd_reset` / `snd_append_cap_sel` calls from a fresh
buffer the count never exceeds `MAX_CAP_ARGS`, so the guarded write at index
`_snd_cap_sel_cnt` stays within the `MAX_CAP_ARGS`-cell array. -/
theorem snd_append_cap_sel_bounded (m : Msgbuf_base) (c : Nat)
    (ops : List MsgbufOp) :
    (snd_cap_sel_cnt m < MAX_CAP_ARGS →
      (snd_append_cap_sel m c).1 = true ∧
      snd_cap_sel_cnt (snd_append_cap_sel m c).2 = snd_cap_sel_cnt m + 1 ∧
      (snd_append_cap_sel m c).2.snd_cap_sel_arr =
        m.snd_cap_sel_arr.set (snd_cap_sel_cnt m) c) ∧
    (MAX_CAP_ARGS ≤ snd_cap_sel_cnt m →
      (snd_append_cap_sel m c).1 = false ∧ (snd_append_cap_sel m c).2 = m) ∧
    snd_cap_sel_cnt (msgbufRun ops) ≤ MAX_CAP_ARGS ∧
    (msgbufRun ops).snd_cap_sel_arr.length = MAX_CAP_ARGS := by
  refine ⟨fun h => ?_, fun h => ?_, ?_⟩
  · have h' : ¬ (m.snd_cap_sel_cnt_fld ≥ MAX_CAP_ARGS) := by
      simp only [snd_cap_sel_cnt] at h; omega
    simp only [snd_append_cap_sel, snd_cap_sel_cnt, if_neg h']
    exact ⟨trivial, trivial, trivial⟩
  · have h' : m.snd_cap_sel_cnt_fld ≥ MAX_CAP_ARGS := by
      simp only [snd_cap_sel_cnt] at h; omega
    simp only [snd_append_cap_sel, snd_cap_sel_cnt, if_pos h']
    exact ⟨trivial, trivial⟩
  · exact msgbuf_foldl_bound ops msgbufInit (Nat.zero_le _) (by simp [msgbufInit])

/-- C10 witness: the bound evaluated on a concrete buffer holding three
selectors and on a concrete operation sequence that overfills the buffer. -/
theorem snd_append_cap_sel_bounded_witness :
    (snd_cap_sel_cnt ⟨[8, 9, 10, 0], 3⟩ < MAX_CAP_ARGS →
      (snd_append_cap_sel ⟨[8, 9, 10, 0], 3⟩ 11).1 = true ∧
      snd_cap_sel_cnt (snd_append_cap_sel ⟨[8, 9, 10, 0], 3⟩ 11).2 =
        snd_cap_sel_cnt ⟨[8, 9, 10, 0], 3⟩ + 1 ∧
      (snd_append_cap_sel ⟨[8, 9, 10, 0], 3⟩ 11).2.snd_cap_sel_arr =
        ([8, 9, 10, 0] : List Nat).set (snd_cap_sel_cnt ⟨[8, 9, 10, 0], 3⟩) 11) ∧
    (MAX_CAP_ARGS ≤ snd_cap_sel_cnt ⟨[8, 9, 10, 0], 3⟩ →
      (snd_append_cap_sel ⟨[8, 9, 10, 0], 3⟩ 11).1 = false ∧
      (snd_append_cap_sel ⟨[8, 9, 10, 0], 3⟩ 11).2 = ⟨[8, 9, 10, 0], 3⟩) ∧
    snd_cap_sel_cnt (msgbufRun
      [.append 1, .append 2, .append 3, .append 4, .append 5, .reset,
       .append 6]) ≤ MAX_CAP_ARGS ∧
    (msgbufRun [.append 1, .append 2, .append 3, .append 4, .append 5,
       .reset, .append 6]).snd_cap_sel_arr.length = MAX_CAP_ARGS :=
  snd_append_cap_sel_bounded ⟨[8, 9, 10, 0], 3⟩ 11
    [.append 1, .append 2, .append 3, .append 4, .append 5, .reset, .append 6]

/-- Helper: `find?` over `range'` returns the least element of the range
satisfying the predicate. -/
theorem range'_find?_least (pred : Nat → Bool) :
    ∀ (n low ip : Nat), (List.range' low n).find? pred = some ip →
      low ≤ ip ∧ ip < low + n ∧ pred ip = true ∧
      ∀ j, low ≤ j → j < ip → pred j = false := by
  intro n
  induction n with
  | zero =>
    intro low ip h
    simp [List.range'] at h
  | succ k ih =>
    intro low ip h
    rw [List.range'_succ] at h
    cases hp : pred low with
    | true =>
      rw [List.find?_cons_of_pos _ hp] at h
      have hip : low = ip := by injection h
      subst hip
      exact ⟨Nat.le_refl _, by omega, hp, fun j h1 h2 => by omega⟩
    | false =>
      rw [List.find?_cons_of_neg _ (by simp [hp])] at h
      obtain ⟨h1, h2, h3, h4⟩ := ih (low + 1) ip h
      refine ⟨by omega, by omega, h3, fun j hj1 hj2 => ?_⟩
      rcases Nat.eq_or_lt_of_le hj1 with hj | hj
      · exact hj ▸ hp
      · exact h4 j hj hj2

/-- C7: a DHCPDISCOVER from MAC `m` reuses the IP of an existing allocation
for `m` when one exists; otherwise it offers the first IP of `[low..high]`,
in scan order, that is not allocated, adding an OFFERED allocation expiring
at `now + offerTimeout`; and when every pool IP is allocated it drops with
`Drop_packet_warn("dhcp pool full")`. -/
theorem new_dhcp_allocation_correct (allocs : List DhcpAlloc)
    (m low high now offerTimeout : Nat) :
    (∀ a, dhcpFind allocs m = some a →
      new_dhcp_allocation allocs m low high now offerTimeout =
        .offer a.ip allocs) ∧
    (dhcpFind allocs m = none →
      ∀ ip, firstFreeIp allocs low high = some ip →
        new_dhcp_allocation allocs m low high now offerTimeout =
          .offer ip (⟨m, ip, .offered, now + offerTimeout⟩ :: allocs) ∧
        low ≤ ip ∧ ip ≤ high ∧ ipAllocated allocs ip = false ∧
        (∀ j, low ≤ j → j < ip → ipAllocated allocs j = true)) ∧
    (dhcpFind allocs m = none → firstFreeIp allocs low high = none →
      new_dhcp_allocation allocs m low high now offerTimeout =
        .dropWarn "dhcp pool full" ∧
      ∀ j, low ≤ j → j ≤ high → ipAllocated allocs j = true) := by
  refine ⟨fun a ha => ?_, fun hn ip hip => ?_, fun hn hnone => ?_⟩
  · simp [new_dhcp_allocation, ha]
  · obtain ⟨h1, h2, h3, h4⟩ :=
      range'_find?_least (fun ip => !(ipAllocated allocs ip))
        (high + 1 - low) low ip hip
    refine ⟨by simp [new_dhcp_allocation, hn, firstFreeIp] at *; simp [hip],
      h1, by omega, by simpa using h3, fun j hj1 hj2 => ?_⟩
    have := h4 j hj1 hj2
    simpa using this
  · constructor
    · simp [new_dhcp_allocation, hn, hnone]
    · intro j hj1 hj2
      rw [firstFreeIp, List.find?_eq_none] at hnone
      have hjmem : j ∈ poolIps low high := by
        rw [poolIps, List.mem_range'_1]
        omega
      have := hnone j hjmem
      simpa using this

/-- C7 witness: the DISCOVER algorithm evaluated on a concrete allocation
table and pool, in the reuse case, the fresh-offer case and the pool-full
case. -/
theorem new_dhcp_allocation_correct_witness :
    (∀ a, dhcpFind [⟨7, 100, .bound, 50⟩, ⟨8, 101, .offered, 60⟩] 8 = some a →
      new_dhcp_allocation [⟨7, 100, .bound, 50⟩, ⟨8, 101, .offered, 60⟩]
          8 100 101 40 5 = .offer a.ip
            [⟨7, 100, .bound, 50⟩, ⟨8, 101, .offered, 60⟩]) ∧
    (dhcpFind [⟨7, 100, .bound, 50⟩, ⟨8, 101, .offered, 60⟩] 8 = none →
      ∀ ip, firstFreeIp [⟨7, 100, .bound, 50⟩, ⟨8, 101, .offered, 60⟩]
          100 101 = some ip →
        new_dhcp_allocation [⟨7, 100, .bound, 50⟩, ⟨8, 101, .offered, 60⟩]
            8 100 101 40 5 =
          .offer ip (⟨8, ip, .offered, 40 + 5⟩ ::
            [⟨7, 100, .bound, 50⟩, ⟨8, 101, .offered, 60⟩]) ∧
        100 ≤ ip ∧ ip ≤ 101 ∧
        ipAllocated [⟨7, 100, .bound, 50⟩, ⟨8, 101, .offered, 60⟩] ip =
          false ∧
        (∀ j, 100 ≤ j → j < ip →
          ipAllocated [⟨7, 100, .bound, 50⟩, ⟨8, 101, .offered, 60⟩] j =
            true)) ∧
    (dhcpFind [⟨7, 100, .bound, 50⟩, ⟨8, 101, .offered, 60⟩] 8 = none →
      firstFreeIp [⟨7, 100, .bound, 50⟩, ⟨8, 101, .offered, 60⟩] 100 101 =
        none →
      new_dhcp_allocation [⟨7, 100, .bound, 50⟩, ⟨8, 101, .offered, 60⟩]
          8 100 101 40 5 = .dropWarn "dhcp pool full" ∧
      ∀ j, 100 ≤ j → j ≤ 101 →
        ipAllocated [⟨7, 100, .bound, 50⟩, ⟨8, 101, .offered, 60⟩] j =
          true) :=
  new_dhcp_allocation_correct
    [⟨7, 100, .bound, 50⟩, ⟨8, 101, .offered, 60⟩] 8 100 101 40 5

/-- Helper: one RX step preserves the exactly-once bookkeeping invariant,
provided a `take` only concerns a fresh descriptor. -/
theorem rxStep_inv (s : RxState) (e : RxEvent) (hinv : rxInv s)
    (hfresh : evFresh e s = true) : rxInv (rxStep s e) := by
  cases e with
  | take d o =>
    have hd : d ∉ s.taken := of_decide_eq_true hfresh
    have h0 : s.acked.count d + s.waiters.count d = 0 := by
      have := hinv d
      rwa [if_neg hd] at this
    have hack : rxInv ⟨d :: s.taken, d :: s.acked, s.waiters⟩ := by
      intro d'
      by_cases hdd : d' = d
      · rw [hdd]
        show (d :: s.acked).count d + s.waiters.count d =
          if d ∈ d :: s.taken then 1 else 0
        rw [List.count_cons_self, if_pos (List.mem_cons_self d s.taken)]
        omega
      · show (d :: s.acked).count d' + s.waiters.count d' =
          if d' ∈ d :: s.taken then 1 else 0
        rw [List.count_cons_of_ne hdd, if_congr List.mem_cons rfl rfl,
          if_congr (or_iff_right hdd) rfl rfl]
        exact hinv d'
    have hpost : rxInv ⟨d :: s.taken, s.acked, d :: s.waiters⟩ := by
      intro d'
      by_cases hdd : d' = d
      · rw [hdd]
        show s.acked.count d + (d :: s.waiters).count d =
          if d ∈ d :: s.taken then 1 else 0
        rw [List.count_cons_self, if_pos (List.mem_cons_self d s.taken)]
        omega
      · show s.acked.count d' + (d :: s.waiters).count d' =
          if d' ∈ d :: s.taken then 1 else 0
        rw [List.count_cons_of_ne hdd, if_congr List.mem_cons rfl rfl,
          if_congr (or_iff_right hdd) rfl rfl]
        exact hinv d'
    cases o with
    | postpone => exact hpost
    | accept => exact hack
    | dropInform => exact hack
    | dropWarn => exact hack
  | resume d o =>
    by_cases hw : d ∈ s.waiters
    · have hwc : 0 < s.waiters.count d := List.count_pos_iff.mpr hw
      have ht : d ∈ s.taken := by
        by_contra h
        have := hinv d
        rw [if_neg h] at this
        omega
      have h1 : s.acked.count d + s.waiters.count d = 1 := by
        have := hinv d
        rwa [if_pos ht] at this
      have hpost : rxInv ⟨s.taken, s.acked, d :: s.waiters.erase d⟩ := by
        intro d'
        by_cases hdd : d' = d
        · rw [hdd]
          show s.acked.count d + (d :: s.waiters.erase d).count d =
            if d ∈ s.taken then 1 else 0
          rw [List.count_cons_self, List.count_erase_self, if_pos ht]
          omega
        · show s.acked.count d' + (d :: s.waiters.erase d).count d' =
            if d' ∈ s.taken then 1 else 0
          rw [List.count_cons_of_ne hdd, List.count_erase_of_ne hdd]
          exact hinv d'
      have hack : rxInv ⟨s.taken, d :: s.acked, s.waiters.erase d⟩ := by
        intro d'
        by_cases hdd : d' = d
        · rw [hdd]
          show (d :: s.acked).count d + (s.waiters.erase d).count d =
            if d ∈ s.taken then 1 else 0
          rw [List.count_cons_self, List.count_erase_self, if_pos ht]
          omega
        · show (d :: s.acked).count d' + (s.waiters.erase d).count d' =
            if d' ∈ s.taken then 1 else 0
          rw [List.count_cons_of_ne hdd, List.count_erase_of_ne hdd]
          exact hinv d'
      simp only [rxStep, if_pos hw]
      cases o with
      | postpone => exact hpost
      | accept => exact hack
      | dropInform => exact hack
      | dropWarn => exact hack
    · simpa only [rxStep, if_neg hw] using hinv
  | timeout d =>
    by_cases hw : d ∈ s.waiters
    · have hwc : 0 < s.waiters.count d := List.count_pos_iff.mpr hw
      have ht : d ∈ s.taken := by
        by_contra h
        have := hinv d
        rw [if_neg h] at this
        omega
      have h1 : s.acked.count d + s.waiters.count d = 1 := by
        have := hinv d
        rwa [if_pos ht] at this
      simp only [rxStep, if_pos hw]
      intro d'
      by_cases hdd : d' = d
      · rw [hdd]
        show (d :: s.acked).count d + (s.waiters.erase d).count d =
          if d ∈ s.taken then 1 else 0
        rw [List.count_cons_self, List.count_erase_self, if_pos ht]
        omega
      · show (d :: s.acked).count d' + (s.waiters.erase d).count d' =
          if d' ∈ s.taken then 1 else 0
        rw [List.count_cons_of_ne hdd, List.count_erase_of_ne hdd]
        exact hinv d'
    · simpa only [rxStep, if_neg hw] using hinv
  | destroy =>
    intro d'
    show (s.waiters ++ s.acked).count d' + ([] : List Nat).count d' =
      if d' ∈ s.taken then 1 else 0
    rw [List.count_append, List.count_nil]
    have := hinv d'
    omega

/-- Helper: a well-formed trace preserves the exactly-once invariant. -/
theorem rxFoldl_inv (es : List RxEvent) :
    ∀ s : RxState, freshTakes es s = true → rxInv s →
      rxInv (es.foldl rxStep s) := by
  induction es with
  | nil => exact fun s _ h => h
  | cons e rest ih =>
    intro s hf hinv
    rw [freshTakes, Bool.and_eq_true] at hf
    exact ih _ hf.2 (rxStep_inv s e hinv hf.1)

/-- C1: on any well-formed trace of takes, ARP resumptions and ARP
timeouts, followed by the destruction of the interface (which cancels the
remaining ARP waiters), every RX descriptor taken from the sink has been
acknowledged exactly once, no descriptor never taken has been acknowledged,
and no waiter survives.  Before destruction, a postponed descriptor sits
unacknowledged in exactly one ARP waiter. -/
theorem rx_ack_exactly_once (es : List RxEvent)
    (hf : freshTakes es rxInit = true) :
    (∀ d, d ∈ (rxStep (rxRun es) .destroy).taken →
      (rxStep (rxRun es) .destroy).acked.count d = 1) ∧
    (∀ d, d ∉ (rxStep (rxRun es) .destroy).taken →
      (rxStep (rxRun es) .destroy).acked.count d = 0) ∧
    (rxStep (rxRun es) .destroy).waiters = [] ∧
    (∀ d, d ∈ (rxRun es).taken →
      (rxRun es).acked.count d + (rxRun es).waiters.count d = 1) := by
  have hinv : rxInv (rxRun es) :=
    rxFoldl_inv es rxInit hf (by intro d; rfl)
  have hinv2 : rxInv (rxStep (rxRun es) .destroy) :=
    rxStep_inv (rxRun es) .destroy hinv rfl
  refine ⟨fun d hd => ?_, fun d hd => ?_, rfl, fun d hd => ?_⟩
  · have := hinv2 d
    rw [if_pos hd] at this
    have hnil : (rxStep (rxRun es) .destroy).waiters.count d = 0 := rfl
    omega
  · have := hinv2 d
    rw [if_neg hd] at this
    omega
  · have := hinv d
    rwa [if_pos hd] at this

/-- C1 witness: the exactly-once acknowledgement property evaluated on the
demonstration trace. -/
theorem rx_ack_exactly_once_witness :
    freshTakes rxDemoTrace rxInit = true ∧
    ((∀ d, d ∈ (rxStep (rxRun rxDemoTrace) .destroy).taken →
      (rxStep (rxRun rxDemoTrace) .destroy).acked.count d = 1) ∧
    (∀ d, d ∉ (rxStep (rxRun rxDemoTrace) .destroy).taken →
      (rxStep (rxRun rxDemoTrace) .destroy).acked.count d = 0) ∧
    (rxStep (rxRun rxDemoTrace) .destroy).waiters = [] ∧
    (∀ d, d ∈ (rxRun rxDemoTrace).taken →
      (rxRun rxDemoTrace).acked.count d +
        (rxRun rxDemoTrace).waiters.count d = 1)) :=
  ⟨by decide, rx_ack_exactly_once rxDemoTrace (by decide)⟩

/-- Helper: one link-list event preserves the link-list invariant. -/
theorem linkStep_inv (s : LinkState) (e : LinkEvent) (hinv : LinkInv s) :
    LinkInv (linkStep s e) := by
  obtain ⟨hnodup, hne, hone1, hone2, hsync, hacto, hdiso⟩ := hinv
  cases e with
  | create id i1 i2 =>
    simp only [linkStep]
    split
    · rename_i hguard
      rw [Bool.and_eq_true] at hguard
      obtain ⟨hfresh, hne12⟩ := hguard
      have hfresh' : ∀ l ∈ s.links, l.id ≠ id := by
        intro l hl
        have := List.all_eq_true.mp hfresh l hl
        simpa using this
      have hne12' : i1 ≠ i2 := by simpa using hne12
      have hact0 : ∀ j : Nat, (j, id) ∉ s.act := by
        intro j hj
        obtain ⟨l, hl, hor⟩ := hacto (j, id) hj
        have hid : l.id = id := by
          rcases hor with h | h <;> exact (congrArg Prod.snd h).symm
        exact hfresh' l hl hid
      have hdis0 : ∀ j : Nat, (j, id) ∉ s.dis := by
        intro j hj
        obtain ⟨l, hl, hor⟩ := hdiso (j, id) hj
        have hid : l.id = id := by
          rcases hor with h | h <;> exact (congrArg Prod.snd h).symm
        exact hfresh' l hl hid
      have hpair1 : ((i1 : Nat), id) ≠ ((i2 : Nat), id) :=
        fun h => hne12' (congrArg Prod.fst h)
      have ca1 : ((i1, id) :: (i2, id) :: s.act).count (i1, id) = 1 := by
        rw [List.count_cons_self, List.count_cons_of_ne hpair1,
          List.count_eq_zero.mpr (hact0 i1)]
      have ca2 : ((i1, id) :: (i2, id) :: s.act).count (i2, id) = 1 := by
        rw [List.count_cons_of_ne (Ne.symm hpair1), List.count_cons_self,
          List.count_eq_zero.mpr (hact0 i2)]
      refine ⟨?_, ?_, ?_, ?_, ?_, ?_, ?_⟩
      · show ((⟨id, i1, i2⟩ :: s.links).map LinkRec.id).Nodup
        rw [List.map_cons, List.nodup_cons]
        refine ⟨fun hmem => ?_, hnodup⟩
        obtain ⟨l, hl, hid⟩ := List.mem_map.mp hmem
        exact hfresh' l hl hid
      · intro l hl
        rcases List.mem_cons.mp hl with rfl | hl
        · exact hne12'
        · exact hne l hl
      · intro l hl
        rcases List.mem_cons.mp hl with rfl | hl
        · show ((i1, id) :: (i2, id) :: s.act).count (i1, id) +
            s.dis.count (i1, id) = 1
          rw [ca1, List.count_eq_zero.mpr (hdis0 i1)]
        · have hp1 : (l.i1, l.id) ≠ ((i1 : Nat), id) :=
            fun h => hfresh' l hl (congrArg Prod.snd h)
          have hp2 : (l.i1, l.id) ≠ ((i2 : Nat), id) :=
            fun h => hfresh' l hl (congrArg Prod.snd h)
          show ((i1, id) :: (i2, id) :: s.act).count (l.i1, l.id) +
            s.dis.count (l.i1, l.id) = 1
          rw [List.count_cons_of_ne hp1, List.count_cons_of_ne hp2]
          exact hone1 l hl
      · intro l hl
        rcases List.mem_cons.mp hl with rfl | hl
        · show ((i1, id) :: (i2, id) :: s.act).count (i2, id) +
            s.dis.count (i2, id) = 1
          rw [ca2, List.count_eq_zero.mpr (hdis0 i2)]
        · have hp1 : (l.i2, l.id) ≠ ((i1 : Nat), id) :=
            fun h => hfresh' l hl (congrArg Prod.snd h)
          have hp2 : (l.i2, l.id) ≠ ((i2 : Nat), id) :=
            fun h => hfresh' l hl (congrArg Prod.snd h)
          show ((i1, id) :: (i2, id) :: s.act).count (l.i2, l.id) +
            s.dis.count (l.i2, l.id) = 1
          rw [List.count_cons_of_ne hp1, List.count_cons_of_ne hp2]
          exact hone2 l hl
      · intro l hl
        rcases List.mem_cons.mp hl with rfl | hl
        · show ((i1, id) :: (i2, id) :: s.act).count (i1, id) =
            ((i1, id) :: (i2, id) :: s.act).count (i2, id)
          rw [ca1, ca2]
        · have hp1 : (l.i1, l.id) ≠ ((i1 : Nat), id) :=
            fun h => hfresh' l hl (congrArg Prod.snd h)
          have hp2 : (l.i1, l.id) ≠ ((i2 : Nat), id) :=
            fun h => hfresh' l hl (congrArg Prod.snd h)
          have hp3 : (l.i2, l.id) ≠ ((i1 : Nat), id) :=
            fun h => hfresh' l hl (congrArg Prod.snd h)
          have hp4 : (l.i2, l.id) ≠ ((i2 : Nat), id) :=
            fun h => hfresh' l hl (congrArg Prod.snd h)
          show ((i1, id) :: (i2, id) :: s.act).count (l.i1, l.id) =
            ((i1, id) :: (i2, id) :: s.act).count (l.i2, l.id)
          rw [List.count_cons_of_ne hp1, List.count_cons_of_ne hp2,
            List.count_cons_of_ne hp3, List.count_cons_of_ne hp4]
          exact hsync l hl
      · intro p hp
        rcases List.mem_cons.mp hp with rfl | hp
        · exact ⟨⟨id, i1, i2⟩, List.mem_cons_self _ _, Or.inl rfl⟩
        · rcases List.mem_cons.mp hp with rfl | hp
          · exact ⟨⟨id, i1, i2⟩, List.mem_cons_self _ _, Or.inr rfl⟩
          · obtain ⟨l, hl, hor⟩ := hacto p hp
            exact ⟨l, List.mem_cons_of_mem _ hl, hor⟩
      · intro p hp
        obtain ⟨l, hl, hor⟩ := hdiso p hp
        exact ⟨l, List.mem_cons_of_mem _ hl, hor⟩
    · exact ⟨hnodup, hne, hone1, hone2, hsync, hacto, hdiso⟩
  | dissolve id =>
    simp only [linkStep]
    split
    · rename_i l hfind
      have hl : l ∈ s.links := List.mem_of_find?_eq_some hfind
      have hinj := List.inj_on_of_nodup_map hnodup
      have hidne : ∀ l' ∈ s.links, l' ≠ l → l'.id ≠ l.id :=
        fun l' hl' hne' hid => hne' (hinj hl' hl hid)
      by_cases ha : (l.i1, l.id) ∈ s.act
      · rw [if_pos ha]
        have hlne : l.i1 ≠ l.i2 := hne l hl
        have hpair : (l.i1, l.id) ≠ (l.i2, l.id) :=
          fun h => hlne (congrArg Prod.fst h)
        have h11 := hone1 l hl
        have h22 := hone2 l hl
        have hpos : 0 < s.act.count (l.i1, l.id) := List.count_pos_iff.mpr ha
        have hac1 : s.act.count (l.i1, l.id) = 1 := by omega
        have hdc1 : s.dis.count (l.i1, l.id) = 0 := by omega
        have hac2 : s.act.count (l.i2, l.id) = 1 :=
          (hsync l hl).symm.trans hac1
        have hdc2 : s.dis.count (l.i2, l.id) = 0 := by omega
        have na1 : ((s.act.erase (l.i1, l.id)).erase (l.i2, l.id)).count
            (l.i1, l.id) = 0 := by
          rw [List.count_erase_of_ne hpair, List.count_erase_self, hac1]
        have na2 : ((s.act.erase (l.i1, l.id)).erase (l.i2, l.id)).count
            (l.i2, l.id) = 0 := by
          rw [List.count_erase_self, List.count_erase_of_ne (Ne.symm hpair),
            hac2]
        have nd1 : ((l.i1, l.id) :: (l.i2, l.id) :: s.dis).count
            (l.i1, l.id) = 1 := by
          rw [List.count_cons_self, List.count_cons_of_ne hpair, hdc1]
        have nd2 : ((l.i1, l.id) :: (l.i2, l.id) :: s.dis).count
            (l.i2, l.id) = 1 := by
          rw [List.count_cons_of_ne (Ne.symm hpair), List.count_cons_self,
            hdc2]
        have hother : ∀ l' ∈ s.links, l' ≠ l →
            ((s.act.erase (l.i1, l.id)).erase (l.i2, l.id)).count
              (l'.i1, l'.id) = s.act.count (l'.i1, l'.id) ∧
            ((s.act.erase (l.i1, l.id)).erase (l.i2, l.id)).count
              (l'.i2, l'.id) = s.act.count (l'.i2, l'.id) ∧
            ((l.i1, l.id) :: (l.i2, l.id) :: s.dis).count
              (l'.i1, l'.id) = s.dis.count (l'.i1, l'.id) ∧
            ((l.i1, l.id) :: (l.i2, l.id) :: s.dis).count
              (l'.i2, l'.id) = s.dis.count (l'.i2, l'.id) := by
          intro l' hl' hll
          have hid := hidne l' hl' hll
          have hq1 : (l'.i1, l'.id) ≠ (l.i1, l.id) :=
            fun h => hid (congrArg Prod.snd h)
          have hq2 : (l'.i1, l'.id) ≠ (l.i2, l.id) :=
            fun h => hid (congrArg Prod.snd h)
          have hq3 : (l'.i2, l'.id) ≠ (l.i1, l.id) :=
            fun h => hid (congrArg Prod.snd h)
          have hq4 : (l'.i2, l'.id) ≠ (l.i2, l.id) :=
            fun h => hid (congrArg Prod.snd h)
          refine ⟨?_, ?_, ?_, ?_⟩
          · rw [List.count_erase_of_ne hq2, List.count_erase_of_ne hq1]
          · rw [List.count_erase_of_ne hq4, List.count_erase_of_ne hq3]
          · rw [List.count_cons_of_ne hq1, List.count_cons_of_ne hq2]
          · rw [List.count_cons_of_ne hq3, List.count_cons_of_ne hq4]
        refine ⟨hnodup, hne, ?_, ?_, ?_, ?_, ?_⟩
        · intro l' hl'
          by_cases hll : l' = l
          · subst hll
            show ((s.act.erase (l'.i1, l'.id)).erase (l'.i2, l'.id)).count
                (l'.i1, l'.id) +
              ((l'.i1, l'.id) :: (l'.i2, l'.id) :: s.dis).count
                (l'.i1, l'.id) = 1
            omega
          · obtain ⟨e1, _, e3, _⟩ := hother l' hl' hll
            show ((s.act.erase (l.i1, l.id)).erase (l.i2, l.id)).count
                (l'.i1, l'.id) +
              ((l.i1, l.id) :: (l.i2, l.id) :: s.dis).count
                (l'.i1, l'.id) = 1
            rw [e1, e3]
            exact hone1 l' hl'
        · intro l' hl'
          by_cases hll : l' = l
          · subst hll
            show ((s.act.erase (l'.i1, l'.id)).erase (l'.i2, l'.id)).count
                (l'.i2, l'.id) +
              ((l'.i1, l'.id) :: (l'.i2, l'.id) :: s.dis).count
                (l'.i2, l'.id) = 1
            omega
          · obtain ⟨_, e2, _, e4⟩ := hother l' hl' hll
            show ((s.act.erase (l.i1, l.id)).erase (l.i2, l.id)).count
                (l'.i2, l'.id) +
              ((l.i1, l.id) :: (l.i2, l.id) :: s.dis).count
                (l'.i2, l'.id) = 1
            rw [e2, e4]
            exact hone2 l' hl'
        · intro l' hl'
          by_cases hll : l' = l
          · subst hll
            show ((s.act.erase (l'.i1, l'.id)).erase (l'.i2, l'.id)).count
                (l'.i1, l'.id) =
              ((s.act.erase (l'.i1, l'.id)).erase (l'.i2, l'.id)).count
                (l'.i2, l'.id)
            omega
          · obtain ⟨e1, e2, _, _⟩ := hother l' hl' hll
            show ((s.act.erase (l.i1, l.id)).erase (l.i2, l.id)).count
                (l'.i1, l'.id) =
              ((s.act.erase (l.i1, l.id)).erase (l.i2, l.id)).count
                (l'.i2, l'.id)
            rw [e1, e2]
            exact hsync l' hl'
        · intro p hp
          have hp' : p ∈ s.act :=
            List.mem_of_mem_erase (List.mem_of_mem_erase hp)
          exact hacto p hp'
        · intro p hp
          rcases List.mem_cons.mp hp with rfl | hp
          · exact ⟨l, hl, Or.inl rfl⟩
          · rcases List.mem_cons.mp hp with rfl | hp
            · exact ⟨l, hl, Or.inr rfl⟩
            · exact hdiso p hp
      · rw [if_neg ha]
        exact ⟨hnodup, hne, hone1, hone2, hsync, hacto, hdiso⟩
    · exact ⟨hnodup, hne, hone1, hone2, hsync, hacto, hdiso⟩
  | drain =>
    have hkeep : ∀ l ∈ s.links, s.act.count (l.i1, l.id) = 1 →
        l ∈ s.links.filter (fun l => (l.i1, l.id) ∉ s.dis) := by
      intro l hl hc
      have hd : s.dis.count (l.i1, l.id) = 0 := by
        have := hone1 l hl
        omega
      have : (l.i1, l.id) ∉ s.dis := List.count_eq_zero.mp hd
      exact List.mem_filter.mpr ⟨hl, decide_eq_true this⟩
    refine ⟨?_, ?_, ?_, ?_, ?_, ?_, ?_⟩
    · show (((s.links.filter (fun l => (l.i1, l.id) ∉ s.dis)).map
        LinkRec.id)).Nodup
      exact List.Nodup.sublist
        (List.Sublist.map LinkRec.id (List.filter_sublist s.links)) hnodup
    · intro l hl
      exact hne l (List.mem_filter.mp hl).1
    · intro l hl
      obtain ⟨hl', hq⟩ := List.mem_filter.mp hl
      have hnd : (l.i1, l.id) ∉ s.dis := of_decide_eq_true hq
      have hd : s.dis.count (l.i1, l.id) = 0 := List.count_eq_zero.mpr hnd
      have h11 := hone1 l hl'
      show s.act.count (l.i1, l.id) +
        ([] : List (Nat × Nat)).count (l.i1, l.id) = 1
      rw [List.count_nil]
      omega
    · intro l hl
      obtain ⟨hl', hq⟩ := List.mem_filter.mp hl
      have hnd : (l.i1, l.id) ∉ s.dis := of_decide_eq_true hq
      have hd : s.dis.count (l.i1, l.id) = 0 := List.count_eq_zero.mpr hnd
      have h11 := hone1 l hl'
      have h22 := hone2 l hl'
      have hs := hsync l hl'
      show s.act.count (l.i2, l.id) +
        ([] : List (Nat × Nat)).count (l.i2, l.id) = 1
      rw [List.count_nil]
      omega
    · intro l hl
      exact hsync l (List.mem_filter.mp hl).1
    · intro p hp
      obtain ⟨l, hl, hor⟩ := hacto p hp
      have hc : 0 < s.act.count p := List.count_pos_iff.mpr hp
      have hc1 : s.act.count (l.i1, l.id) = 1 := by
        have h11 := hone1 l hl
        have hs := hsync l hl
        rcases hor with rfl | rfl <;> omega
      exact ⟨l, hkeep l hl hc1, hor⟩
    · intro p hp
      exact absurd hp (List.not_mem_nil p)

/-- Helper: every trace of link events preserves the invariant. -/
theorem linkFoldl_inv (es : List LinkEvent) :
    ∀ s, LinkInv s → LinkInv (es.foldl linkStep s) := by
  induction es with
  | nil => exact fun s h => h
  | cons e rest ih => exact fun s h => ih _ (linkStep_inv s e h)

/-- Helper: the empty link table satisfies the invariant. -/
theorem linkInit_inv : LinkInv linkInit := by
  refine ⟨?_, ?_, ?_, ?_, ?_, ?_, ?_⟩ <;> simp [linkInit]

/-- C2: after any trace of link creations, dissolutions and `ready_to_ack`
drains, every live link is present in exactly one of the two lists (active
or dissolved) of each of its two interfaces — never in both and never in
neither. -/
theorem link_in_exactly_one_list (es : List LinkEvent) (l : LinkRec)
    (hl : l ∈ (linkRun es).links) :
    (linkRun es).act.count (l.i1, l.id) +
      (linkRun es).dis.count (l.i1, l.id) = 1 ∧
    (linkRun es).act.count (l.i2, l.id) +
      (linkRun es).dis.count (l.i2, l.id) = 1 := by
  have hinv : LinkInv (linkRun es) := linkFoldl_inv es linkInit linkInit_inv
  exact ⟨hinv.one1 l hl, hinv.one2 l hl⟩

/-- C2 witness: the exactly-one-list property evaluated on the
demonstration trace for the dissolved link. -/
theorem link_in_exactly_one_list_witness :
    (⟨5, 1, 2⟩ : LinkRec) ∈ (linkRun linkDemoTrace).links ∧
    ((linkRun linkDemoTrace).act.count (1, 5) +
       (linkRun linkDemoTrace).dis.count (1, 5) = 1 ∧
     (linkRun linkDemoTrace).act.count (2, 5) +
       (linkRun linkDemoTrace).dis.count (2, 5) = 1) :=
  ⟨by decide, link_in_exactly_one_list linkDemoTrace ⟨5, 1, 2⟩ (by decide)⟩

/-- Helper: dissolving a link leaves the set of live links unchanged —
deletion only happens at the drain. -/
theorem dissolve_links_eq (st : LinkState) (id : Nat) :
    (linkStep st (.dissolve id)).links = st.links := by
  simp only [linkStep]
  split
  · split
    · rfl
    · rfl
  · rfl

/-- Helper: dissolving a link only removes entries from the active lists. -/
theorem dissolve_act_subset (st : LinkState) (id : Nat) (p : Nat × Nat)
    (hp : p ∈ (linkStep st (.dissolve id)).act) : p ∈ st.act := by
  simp only [linkStep] at hp
  split at hp
  · split at hp
    · exact List.mem_of_mem_erase (List.mem_of_mem_erase hp)
    · exact hp
  · exact hp

/-- Helper: after dissolving a live link, neither of its sides is in an
active list any more. -/
theorem dissolve_inactive (st : LinkState) (l : LinkRec) (hinv : LinkInv st)
    (hl : l ∈ st.links) :
    (l.i1, l.id) ∉ (linkStep st (.dissolve l.id)).act ∧
    (l.i2, l.id) ∉ (linkStep st (.dissolve l.id)).act := by
  obtain ⟨hnodup, hne, hone1, hone2, hsync, hacto, hdiso⟩ := hinv
  cases hfind : st.links.find? (fun l' => l'.id == l.id) with
  | none =>
    exfalso
    rw [List.find?_eq_none] at hfind
    exact hfind l hl (by simp)
  | some l₀ =>
    have hl₀ : l₀ ∈ st.links := List.mem_of_find?_eq_some hfind
    have hid : l₀.id = l.id := by simpa using List.find?_some hfind
    have hinj := List.inj_on_of_nodup_map hnodup
    have heq : l₀ = l := hinj hl₀ hl hid
    subst heq
    simp only [linkStep, hfind]
    by_cases ha : (l₀.i1, l₀.id) ∈ st.act
    · rw [if_pos ha]
      have hlne : l₀.i1 ≠ l₀.i2 := hne l₀ hl₀
      have hpair : (l₀.i1, l₀.id) ≠ (l₀.i2, l₀.id) :=
        fun h => hlne (congrArg Prod.fst h)
      have h11 := hone1 l₀ hl₀
      have hpos : 0 < st.act.count (l₀.i1, l₀.id) := List.count_pos_iff.mpr ha
      have hac1 : st.act.count (l₀.i1, l₀.id) = 1 := by omega
      have hac2 : st.act.count (l₀.i2, l₀.id) = 1 :=
        (hsync l₀ hl₀).symm.trans hac1
      have na1 : ((st.act.erase (l₀.i1, l₀.id)).erase (l₀.i2, l₀.id)).count
          (l₀.i1, l₀.id) = 0 := by
        rw [List.count_erase_of_ne hpair, List.count_erase_self, hac1]
      have na2 : ((st.act.erase (l₀.i1, l₀.id)).erase (l₀.i2, l₀.id)).count
          (l₀.i2, l₀.id) = 0 := by
        rw [List.count_erase_self, List.count_erase_of_ne (Ne.symm hpair),
          hac2]
      exact ⟨List.count_eq_zero.mp na1, List.count_eq_zero.mp na2⟩
    · rw [if_neg ha]
      have hc1 : st.act.count (l₀.i1, l₀.id) = 0 := List.count_eq_zero.mpr ha
      have hc2 : st.act.count (l₀.i2, l₀.id) = 0 := (hsync l₀ hl₀).symm.trans hc1
      exact ⟨ha, List.count_eq_zero.mp hc2⟩

/-- Helper: a fold of dissolutions leaves the live links unchanged. -/
theorem dissolveFold_links (ids : List Nat) :
    ∀ st : LinkState,
      (ids.foldl (fun st id => linkStep st (.dissolve id)) st).links =
        st.links := by
  induction ids with
  | nil => exact fun st => rfl
  | cons id rest ih =>
    intro st
    rw [List.foldl_cons, ih, dissolve_links_eq]

/-- Helper: a fold of dissolutions only removes active-list entries. -/
theorem dissolveFold_act (ids : List Nat) :
    ∀ (st : LinkState) (p : Nat × Nat),
      p ∈ (ids.foldl (fun st id => linkStep st (.dissolve id)) st).act →
        p ∈ st.act := by
  induction ids with
  | nil => exact fun st p hp => hp
  | cons id rest ih =>
    intro st p hp
    rw [List.foldl_cons] at hp
    exact dissolve_act_subset st id p (ih _ p hp)

/-- Helper: a fold of dissolutions preserves the link-list invariant. -/
theorem dissolveFold_inv (ids : List Nat) :
    ∀ st : LinkState, LinkInv st →
      LinkInv (ids.foldl (fun st id => linkStep st (.dissolve id)) st) := by
  induction ids with
  | nil => exact fun st h => h
  | cons id rest ih =>
    intro st h
    rw [List.foldl_cons]
    exact ih _ (linkStep_inv st (.dissolve id) h)

/-- Helper: after a fold of dissolutions covering a live link's id, neither
side of that link is in an active list. -/
theorem dissolveFold_inactive (ids : List Nat) :
    ∀ st : LinkState, LinkInv st → ∀ l ∈ st.links, l.id ∈ ids →
      (l.i1, l.id) ∉
        (ids.foldl (fun st id => linkStep st (.dissolve id)) st).act ∧
      (l.i2, l.id) ∉
        (ids.foldl (fun st id => linkStep st (.dissolve id)) st).act := by
  induction ids with
  | nil =>
    intro st _ l _ h
    exact absurd h (List.not_mem_nil _)
  | cons id rest ih =>
    intro st hinv l hl hid
    rw [List.foldl_cons]
    rcases List.mem_cons.mp hid with hfst | hid
    · rw [← hfst]
      have h1 := dissolve_inactive st l hinv hl
      constructor
      · intro hmem
        exact h1.1 (dissolveFold_act rest _ _ hmem)
      · intro hmem
        exact h1.2 (dissolveFold_act rest _ _ hmem)
    · have hinv' := linkStep_inv st (.dissolve id) hinv
      have hl' : l ∈ (linkStep st (.dissolve id)).links := by
        rw [dissolve_links_eq]
        exact hl
      exact ih _ hinv' l hl' hid

/-- C8 counterexample: in a state holding one link between interfaces 1
and 2, destroying interface 1 leaves that link — which references the
destroyed interface — alive and present in the dissolved lists, so the
peer interface 2's dissolved link list still references interface 1 after
the destructor returns; only the next `ready_to_ack` drain deletes it. -/
theorem destroy_leaves_dissolved_reference :
    (⟨5, 1, 2⟩ : LinkRec) ∈
      (destroyInterface ⟨linkRun [.create 5 1 2], [], [], []⟩ 1).linkst.links ∧
    (2, 5) ∈
      (destroyInterface ⟨linkRun [.create 5 1 2], [], [], []⟩ 1).linkst.dis := by
  decide

/-- C8 amended: destroying an interface releases every DHCP allocation it
holds, cancels all of its timers and revokes every ARP waiter whose
waiting interface is it; every link it participates in is dissolved — it
leaves the active lists of both its interfaces but, per the two-phase
discipline, stays in the dissolved lists — and only after the next
`ready_to_ack` drain does no link list of any object still reference the
destroyed interface. -/
theorem destroyInterface_two_phase (es : List LinkEvent)
    (allocs timers : List (Nat × Nat)) (waiters : List ArpWaiterRec)
    (i : Nat) :
    (∀ a ∈ (destroyInterface ⟨linkRun es, allocs, waiters, timers⟩ i).allocsOf,
      a.1 ≠ i) ∧
    (∀ w ∈ (destroyInterface ⟨linkRun es, allocs, waiters, timers⟩ i).waiters,
      w.iface ≠ i) ∧
    (∀ t ∈ (destroyInterface ⟨linkRun es, allocs, waiters, timers⟩ i).timers,
      t.1 ≠ i) ∧
    (destroyInterface ⟨linkRun es, allocs, waiters, timers⟩ i).linkst.links =
      (linkRun es).links ∧
    (∀ l ∈ (destroyInterface
        ⟨linkRun es, allocs, waiters, timers⟩ i).linkst.links,
      l.i1 = i ∨ l.i2 = i →
      (l.i1, l.id) ∉ (destroyInterface
        ⟨linkRun es, allocs, waiters, timers⟩ i).linkst.act ∧
      (l.i2, l.id) ∉ (destroyInterface
        ⟨linkRun es, allocs, waiters, timers⟩ i).linkst.act) ∧
    (∀ l ∈ (linkStep (destroyInterface
        ⟨linkRun es, allocs, waiters, timers⟩ i).linkst .drain).links,
      l.i1 ≠ i ∧ l.i2 ≠ i) := by
  have invL : LinkInv (linkRun es) := linkFoldl_inv es linkInit linkInit_inv
  have hids :
      ∀ l ∈ (linkRun es).links, l.i1 = i ∨ l.i2 = i →
        l.id ∈ (linksOf (linkRun es) i).map LinkRec.id := by
    intro l hl htouch
    refine List.mem_map_of_mem LinkRec.id ?_
    rw [linksOf]
    refine List.mem_filter.mpr ⟨hl, ?_⟩
    rcases htouch with h | h <;> simp [h]
  have hinact :
      ∀ l ∈ (linkRun es).links, l.i1 = i ∨ l.i2 = i →
        (l.i1, l.id) ∉ (destroyInterface
          ⟨linkRun es, allocs, waiters, timers⟩ i).linkst.act ∧
        (l.i2, l.id) ∉ (destroyInterface
          ⟨linkRun es, allocs, waiters, timers⟩ i).linkst.act :=
    fun l hl htouch =>
      dissolveFold_inactive ((linksOf (linkRun es) i).map LinkRec.id)
        (linkRun es) invL l hl (hids l hl htouch)
  have hlinks :
      (destroyInterface ⟨linkRun es, allocs, waiters, timers⟩ i).linkst.links
        = (linkRun es).links :=
    dissolveFold_links ((linksOf (linkRun es) i).map LinkRec.id) (linkRun es)
  have hinv1 :
      LinkInv (destroyInterface
        ⟨linkRun es, allocs, waiters, timers⟩ i).linkst :=
    dissolveFold_inv ((linksOf (linkRun es) i).map LinkRec.id)
      (linkRun es) invL
  refine ⟨fun a ha => ?_, fun w hw => ?_, fun t ht => ?_, hlinks,
    fun l hl htouch => ?_, fun l hl => ?_⟩
  · have ha' : a ∈ allocs.filter (fun a => a.1 ≠ i) := ha
    exact of_decide_eq_true (List.mem_filter.mp ha').2
  · have hw' : w ∈ waiters.filter (fun w => w.iface ≠ i) := hw
    exact of_decide_eq_true (List.mem_filter.mp hw').2
  · have ht' : t ∈ timers.filter (fun t => t.1 ≠ i) := ht
    exact of_decide_eq_true (List.mem_filter.mp ht').2
  · rw [hlinks] at hl
    exact hinact l hl htouch
  · simp only [linkStep] at hl
    obtain ⟨hl', hq⟩ := List.mem_filter.mp hl
    have hnd : (l.i1, l.id) ∉
        (destroyInterface
          ⟨linkRun es, allocs, waiters, timers⟩ i).linkst.dis :=
      of_decide_eq_true hq
    have hnt : ¬ (l.i1 = i ∨ l.i2 = i) := by
      intro htouch
      have hlL : l ∈ (linkRun es).links := by
        rw [← hlinks]
        exact hl'
      have hia := (hinact l (hlinks ▸ hl') htouch).1
      have hc1 : (destroyInterface
          ⟨linkRun es, allocs, waiters, timers⟩ i).linkst.act.count
            (l.i1, l.id) = 0 :=
        List.count_eq_zero.mpr hia
      have h11 := hinv1.one1 l hl'
      have hdpos : 0 < (destroyInterface
          ⟨linkRun es, allocs, waiters, timers⟩ i).linkst.dis.count
            (l.i1, l.id) := by omega
      exact hnd (List.count_pos_iff.mp hdpos)
    exact ⟨fun h => hnt (Or.inl h), fun h => hnt (Or.inr h)⟩

end GenodeNet
